import Mathlib

/-!
Shallow embedding of the proof-of-existence pallet
(`src/pallets/poe/src/lib.rs`).

The pallet keeps one storage map
`Proofs : map Vec<u8> => (AccountId, BlockNumber)` and exposes three
dispatchables: `create_claim`, `revoke_claim`, `transfer_claim`.
Fingerprints (`Vec<u8>`) are byte lists, account ids and block numbers
are opaque host types modelled as naturals.  The storage map is embedded
as an association list whose operations mirror the Substrate
`StorageMap` API (`contains_key`, `get`, `insert`, `remove`).  Each
dispatchable takes the call origin, its arguments, the current block
number (read in the source from `frame_system::Module::block_number()`)
and the pre-state, and returns the `DispatchResult` together with the
post-state (storage plus the list of deposited events).
-/

namespace Poe

/-- Fingerprints are opaque byte sequences (`Vec<u8>` in the source). -/
abbrev Fingerprint := List Nat

/-- Account identifiers (`T::AccountId`): opaque, equality-comparable. -/
abbrev AccountId := Nat

/-- Block numbers (`T::BlockNumber`): the host sequence counter. -/
abbrev BlockNumber := Nat

/-- The stored value of the `Proofs` map: `(T::AccountId, T::BlockNumber)`. -/
abbrev Claim := AccountId × BlockNumber

/-- The `Proofs` storage map, embedded as an association list from
fingerprints to claims. -/
abbrev ProofsMap := List (Fingerprint × Claim)

/-- `StorageMap::contains_key`: whether a key is present in the map. -/
def containsKey (m : ProofsMap) (k : Fingerprint) : Bool :=
  m.any (fun p => p.1 = k)

/-- Lookup of a key in the map, returning its value when present. -/
def lookupClaim (m : ProofsMap) (k : Fingerprint) : Option Claim :=
  match m with
  | [] => none
  | (k₁, v) :: rest => if k₁ = k then some v else lookupClaim rest k

/-- `StorageMap::get`: returns the stored value, or the type default when
the key is absent (the source only calls it after `contains_key`). -/
def getClaim (m : ProofsMap) (k : Fingerprint) : Claim :=
  (lookupClaim m k).getD (0, 0)

/-- `StorageMap::insert`: inserts or overwrites the value at a key. -/
def insertClaim (m : ProofsMap) (k : Fingerprint) (v : Claim) : ProofsMap :=
  match m with
  | [] => [(k, v)]
  | (k₁, v₁) :: rest =>
      if k₁ = k then (k, v) :: rest else (k₁, v₁) :: insertClaim rest k v

/-- `StorageMap::remove`: removes a key from the map. -/
def removeClaim (m : ProofsMap) (k : Fingerprint) : ProofsMap :=
  match m with
  | [] => []
  | (k₁, v₁) :: rest =>
      if k₁ = k then removeClaim rest k else (k₁, v₁) :: removeClaim rest k

/-- Call origins, as in `frame_system`: a signed origin carries the
sender account; root and unsigned origins are not signed. -/
inductive Origin where
  | signed (who : AccountId)
  | root
  | unsigned
deriving DecidableEq, Repr

/-- Errors declared in the `decl_error!` block of the pallet. -/
inductive Error where
  | ProofAlreadyExist
  | ClaimNotExist
  | NotClaimOwner
deriving DecidableEq, Repr

/-- Dispatch-level errors: a bad origin from `ensure_signed`, or a
pallet error. -/
inductive DispatchError where
  | BadOrigin
  | Module (e : Error)
deriving DecidableEq, Repr

/-- `dispatch::DispatchResult`. -/
abbrev DispatchResult := Except DispatchError Unit

/-- Events declared in the `decl_event!` block of the pallet. -/
inductive Event where
  | ClaimCreated (who : AccountId) (claim : Fingerprint)
  | ClaimRevoked (who : AccountId) (claim : Fingerprint)
  | ClaimTransfered (who : AccountId) (dest : AccountId) (claim : Fingerprint)
deriving DecidableEq, Repr

/-- The pallet state visible to the claims: the `Proofs` storage map and
the list of deposited events, in order of deposit. -/
structure PoeState where
  proofs : ProofsMap
  events : List Event
deriving DecidableEq, Repr

/-- The genesis state: empty storage, no events. -/
def initState : PoeState := ⟨[], []⟩

/-- `frame_system::ensure_signed`: returns the sender of a signed
origin and errors with `BadOrigin` otherwise. -/
def ensure_signed (origin : Origin) : Except DispatchError AccountId :=
  match origin with
  | .signed who => .ok who
  | _ => .error .BadOrigin

/-- `Self::deposit_event`: appends an event to the deposited-event list. -/
def deposit_event (e : Event) (st : PoeState) : PoeState :=
  { st with events := st.events ++ [e] }

/-- Dispatchable `create_claim(origin, claim)`.  Requires a signed
origin; fails with `ProofAlreadyExist` when the fingerprint is already
claimed; otherwise stores `(sender, block_number)` under the
fingerprint and deposits `ClaimCreated(sender, claim)`. -/
def create_claim (origin : Origin) (claim : Fingerprint) (now : BlockNumber)
    (st : PoeState) : DispatchResult × PoeState :=
  match ensure_signed origin with
  | .error e => (.error e, st)
  | .ok sender =>
      if containsKey st.proofs claim then
        (.error (.Module .ProofAlreadyExist), st)
      else
        let st₁ : PoeState := { st with proofs := insertClaim st.proofs claim (sender, now) }
        let st₂ := deposit_event (Event.ClaimCreated sender claim) st₁
        (.ok (), st₂)

/-- Dispatchable `revoke_claim(origin, claim)`.  Requires a signed
origin; fails with `ClaimNotExist` when the fingerprint is absent and
with `NotClaimOwner` when the sender is not the stored owner; otherwise
removes the fingerprint and deposits `ClaimRevoked(sender, claim)`. -/
def revoke_claim (origin : Origin) (claim : Fingerprint)
    (st : PoeState) : DispatchResult × PoeState :=
  match ensure_signed origin with
  | .error e => (.error e, st)
  | .ok sender =>
      if containsKey st.proofs claim then
        let owner := (getClaim st.proofs claim).1
        if sender = owner then
          let st₁ : PoeState := { st with proofs := removeClaim st.proofs claim }
          let st₂ := deposit_event (Event.ClaimRevoked sender claim) st₁
          (.ok (), st₂)
        else
          (.error (.Module .NotClaimOwner), st)
      else
        (.error (.Module .ClaimNotExist), st)

/-- Dispatchable `transfer_claim(origin, dest, claim)`.  Requires a
signed origin; fails with `ClaimNotExist` when the fingerprint is absent
and with `NotClaimOwner` when the sender is not the stored owner;
otherwise overwrites the stored claim with `(dest, block_number)` where
`block_number` is the one read from storage, and deposits
`ClaimTransfered(sender, dest, claim)`. -/
def transfer_claim (origin : Origin) (dest : AccountId) (claim : Fingerprint)
    (st : PoeState) : DispatchResult × PoeState :=
  match ensure_signed origin with
  | .error e => (.error e, st)
  | .ok sender =>
      if containsKey st.proofs claim then
        let stored := getClaim st.proofs claim
        let owner := stored.1
        let block_number := stored.2
        if sender = owner then
          let st₁ : PoeState := { st with proofs := insertClaim st.proofs claim (dest, block_number) }
          let st₂ := deposit_event (Event.ClaimTransfered sender dest claim) st₁
          (.ok (), st₂)
        else
          (.error (.Module .NotClaimOwner), st)
      else
        (.error (.Module .ClaimNotExist), st)

/-! ### Lemmas about the storage-map operations -/

theorem lookupClaim_insertClaim_self (m : ProofsMap) (k : Fingerprint) (v : Claim) :
    lookupClaim (insertClaim m k v) k = some v := by
  induction m with
  | nil => simp [insertClaim, lookupClaim]
  | cons p rest ih =>
      obtain ⟨k₁, v₁⟩ := p
      by_cases h : k₁ = k
      · simp [insertClaim, h, lookupClaim]
      · simp [insertClaim, h, lookupClaim, ih]

theorem lookupClaim_insertClaim_ne (m : ProofsMap) (k g : Fingerprint) (v : Claim)
    (h : g ≠ k) : lookupClaim (insertClaim m k v) g = lookupClaim m g := by
  have hkg : ¬ k = g := fun hh => h hh.symm
  induction m with
  | nil => simp [insertClaim, lookupClaim, hkg]
  | cons p rest ih =>
      obtain ⟨k₁, v₁⟩ := p
      by_cases hk : k₁ = k
      · simp [insertClaim, lookupClaim, hk, hkg]
      · simp [insertClaim, lookupClaim, hk, ih]

theorem lookupClaim_removeClaim_self (m : ProofsMap) (k : Fingerprint) :
    lookupClaim (removeClaim m k) k = none := by
  induction m with
  | nil => simp [removeClaim, lookupClaim]
  | cons p rest ih =>
      obtain ⟨k₁, v₁⟩ := p
      by_cases h : k₁ = k
      · simp [removeClaim, h, ih]
      · simp [removeClaim, h, lookupClaim, ih]

theorem lookupClaim_removeClaim_ne (m : ProofsMap) (k g : Fingerprint)
    (h : g ≠ k) : lookupClaim (removeClaim m k) g = lookupClaim m g := by
  have hkg : ¬ k = g := fun hh => h hh.symm
  induction m with
  | nil => simp [removeClaim]
  | cons p rest ih =>
      obtain ⟨k₁, v₁⟩ := p
      by_cases hk : k₁ = k
      · simp [removeClaim, lookupClaim, hk, hkg, ih]
      · simp [removeClaim, lookupClaim, hk, ih]

theorem containsKey_eq_isSome_lookupClaim (m : ProofsMap) (k : Fingerprint) :
    containsKey m k = (lookupClaim m k).isSome := by
  induction m with
  | nil => rfl
  | cons p rest ih =>
      obtain ⟨k₁, v₁⟩ := p
      by_cases h : k₁ = k
      · simp [containsKey, lookupClaim, h]
      · simpa [containsKey, lookupClaim, h] using ih

theorem containsKey_true_of_lookupClaim (m : ProofsMap) (k : Fingerprint)
    (v : Claim) (h : lookupClaim m k = some v) : containsKey m k = true := by
  rw [containsKey_eq_isSome_lookupClaim, h]
  rfl

theorem containsKey_false_of_lookupClaim (m : ProofsMap) (k : Fingerprint)
    (h : lookupClaim m k = none) : containsKey m k = false := by
  rw [containsKey_eq_isSome_lookupClaim, h]
  rfl

theorem getClaim_of_lookupClaim (m : ProofsMap) (k : Fingerprint) (v : Claim)
    (h : lookupClaim m k = some v) : getClaim m k = v := by
  simp [getClaim, h]

theorem insertClaim_cons_pos (k₁ k : Fingerprint) (v₁ v : Claim)
    (rest : ProofsMap) (hk : k₁ = k) :
    insertClaim ((k₁, v₁) :: rest) k v = (k, v) :: rest := by
  simp [insertClaim, hk]

theorem insertClaim_cons_neg (k₁ k : Fingerprint) (v₁ v : Claim)
    (rest : ProofsMap) (hk : ¬ k₁ = k) :
    insertClaim ((k₁, v₁) :: rest) k v = (k₁, v₁) :: insertClaim rest k v := by
  simp [insertClaim, hk]

theorem mem_keys_insertClaim (m : ProofsMap) (k g : Fingerprint) (v : Claim) :
    g ∈ (insertClaim m k v).map Prod.fst → g ∈ m.map Prod.fst ∨ g = k := by
  induction m with
  | nil =>
      intro h
      simp [insertClaim] at h
      exact Or.inr h
  | cons p rest ih =>
      obtain ⟨k₁, v₁⟩ := p
      by_cases hk : k₁ = k
      · intro h
        rw [insertClaim_cons_pos k₁ k v₁ v rest hk] at h
        simp only [List.map_cons, List.mem_cons] at h
        rcases h with h | h
        · exact Or.inr h
        · exact Or.inl (List.mem_cons_of_mem _ h)
      · intro h
        rw [insertClaim_cons_neg k₁ k v₁ v rest hk] at h
        simp only [List.map_cons, List.mem_cons] at h
        rcases h with h | h
        · exact Or.inl (by simp [h])
        · rcases ih h with h₁ | h₁
          · exact Or.inl (List.mem_cons_of_mem _ h₁)
          · exact Or.inr h₁

theorem mem_keys_removeClaim (m : ProofsMap) (k g : Fingerprint) :
    g ∈ (removeClaim m k).map Prod.fst → g ∈ m.map Prod.fst := by
  induction m with
  | nil =>
      intro h
      simp [removeClaim] at h
  | cons p rest ih =>
      obtain ⟨k₁, v₁⟩ := p
      by_cases hk : k₁ = k
      · intro h
        simp only [removeClaim, if_pos hk] at h
        exact List.mem_cons_of_mem _ (ih h)
      · intro h
        simp only [removeClaim, if_neg hk, List.map_cons, List.mem_cons] at h
        rcases h with h | h
        · simp [h]
        · exact List.mem_cons_of_mem _ (ih h)

theorem keys_nodup_insertClaim (m : ProofsMap) (k : Fingerprint) (v : Claim)
    (h : (m.map Prod.fst).Nodup) : ((insertClaim m k v).map Prod.fst).Nodup := by
  induction m with
  | nil => simp [insertClaim]
  | cons p rest ih =>
      obtain ⟨k₁, v₁⟩ := p
      simp only [List.map_cons, List.nodup_cons] at h
      by_cases hk : k₁ = k
      · rw [insertClaim_cons_pos k₁ k v₁ v rest hk]
        simp only [List.map_cons, List.nodup_cons]
        subst hk
        exact h
      · rw [insertClaim_cons_neg k₁ k v₁ v rest hk]
        simp only [List.map_cons, List.nodup_cons]
        refine ⟨fun hmem => ?_, ih h.2⟩
        rcases mem_keys_insertClaim rest k k₁ v hmem with h₁ | h₁
        · exact h.1 h₁
        · exact hk h₁

theorem keys_nodup_removeClaim (m : ProofsMap) (k : Fingerprint)
    (h : (m.map Prod.fst).Nodup) : ((removeClaim m k).map Prod.fst).Nodup := by
  induction m with
  | nil => simp [removeClaim]
  | cons p rest ih =>
      obtain ⟨k₁, v₁⟩ := p
      simp only [List.map_cons, List.nodup_cons] at h
      by_cases hk : k₁ = k
      · simp only [removeClaim, if_pos hk]
        exact ih h.2
      · simp only [removeClaim, if_neg hk, List.map_cons, List.nodup_cons]
        exact ⟨fun hmem => h.1 (mem_keys_removeClaim rest k k₁ hmem), ih h.2⟩

/-! ### Claim theorems -/

/-- C1: for every fingerprint f not currently present in the Proofs
store, create_claim called by account A with f succeeds, and afterwards
the store maps f to the pair (A, current block number) and a
ClaimCreated(A, f) event is emitted. -/
theorem create_claim_fresh_spec (st : PoeState) (A : AccountId)
    (f : Fingerprint) (now : BlockNumber)
    (h : containsKey st.proofs f = false) :
    (create_claim (Origin.signed A) f now st).1 = Except.ok () ∧
    lookupClaim (create_claim (Origin.signed A) f now st).2.proofs f
      = some (A, now) ∧
    (create_claim (Origin.signed A) f now st).2.events
      = st.events ++ [Event.ClaimCreated A f] := by
  refine ⟨?_, ?_, ?_⟩ <;>
    simp [create_claim, ensure_signed, h, deposit_event,
      lookupClaim_insertClaim_self]

/-- Witness for C1 at a concrete fresh fingerprint. -/
theorem create_claim_fresh_spec_witness :
    containsKey initState.proofs [1, 2] = false ∧
    ((create_claim (Origin.signed 7) [1, 2] 3 initState).1 = Except.ok () ∧
     lookupClaim (create_claim (Origin.signed 7) [1, 2] 3 initState).2.proofs
       [1, 2] = some (7, 3) ∧
     (create_claim (Origin.signed 7) [1, 2] 3 initState).2.events
       = initState.events ++ [Event.ClaimCreated 7 [1, 2]]) :=
  ⟨by decide, create_claim_fresh_spec initState 7 [1, 2] 3 (by decide)⟩

/-- C5: for every fingerprint f already present in the store (owned by
A), create_claim(B, f) fails with ProofAlreadyExist for every caller B,
and afterwards the store still maps f to the unchanged record of A. -/
theorem create_claim_duplicate_fails (st : PoeState) (A B : AccountId)
    (f : Fingerprint) (r now : BlockNumber)
    (h : lookupClaim st.proofs f = some (A, r)) :
    create_claim (Origin.signed B) f now st
      = (Except.error (DispatchError.Module Error.ProofAlreadyExist), st) ∧
    lookupClaim (create_claim (Origin.signed B) f now st).2.proofs f
      = some (A, r) := by
  have hc : containsKey st.proofs f = true :=
    containsKey_true_of_lookupClaim _ _ _ h
  constructor
  · simp [create_claim, ensure_signed, hc]
  · simp [create_claim, ensure_signed, hc, h]

/-- Witness for C5: a second create on a just-claimed fingerprint. -/
theorem create_claim_duplicate_fails_witness :
    lookupClaim [([4, 4], (9, 2))] [4, 4] = some (9, 2) ∧
    (create_claim (Origin.signed 8) [4, 4] 6 ⟨[([4, 4], (9, 2))], []⟩
       = (Except.error (DispatchError.Module Error.ProofAlreadyExist),
          ⟨[([4, 4], (9, 2))], []⟩) ∧
     lookupClaim
       (create_claim (Origin.signed 8) [4, 4] 6
         ⟨[([4, 4], (9, 2))], []⟩).2.proofs [4, 4] = some (9, 2)) :=
  ⟨by decide, create_claim_duplicate_fails ⟨[([4, 4], (9, 2))], []⟩ 9 8
    [4, 4] 2 6 (by decide)⟩

/-- C10: the empty byte sequence is a valid fingerprint: when it is
unclaimed, create_claim(A, []) succeeds and stores [] -> (A, current
block number) exactly as for any non-empty fingerprint. -/
theorem empty_fingerprint_valid (st : PoeState) (A : AccountId)
    (now : BlockNumber) (h : containsKey st.proofs [] = false) :
    (create_claim (Origin.signed A) [] now st).1 = Except.ok () ∧
    lookupClaim (create_claim (Origin.signed A) [] now st).2.proofs []
      = some (A, now) ∧
    (create_claim (Origin.signed A) [] now st).2.events
      = st.events ++ [Event.ClaimCreated A []] := by
  refine ⟨?_, ?_, ?_⟩ <;>
    simp [create_claim, ensure_signed, h, deposit_event,
      lookupClaim_insertClaim_self]

/-- Witness for C10: creating the empty fingerprint from genesis. -/
theorem empty_fingerprint_valid_witness :
    containsKey initState.proofs [] = false ∧
    ((create_claim (Origin.signed 5) [] 4 initState).1 = Except.ok () ∧
     lookupClaim (create_claim (Origin.signed 5) [] 4 initState).2.proofs []
       = some (5, 4) ∧
     (create_claim (Origin.signed 5) [] 4 initState).2.events
       = initState.events ++ [Event.ClaimCreated 5 []]) :=
  ⟨by decide, empty_fingerprint_valid initState 5 4 (by decide)⟩

/-- C2: for every stored claim (owner A, registered_at r) under
fingerprint f, a successful transfer_claim by A to destination B
replaces the stored record with (B, r): the owner becomes B and the
registered_at value is exactly the original r, not the block number at
transfer time. -/
theorem transfer_preserves_registered_at (st : PoeState) (A B : AccountId)
    (f : Fingerprint) (r : BlockNumber)
    (h : lookupClaim st.proofs f = some (A, r)) :
    (transfer_claim (Origin.signed A) B f st).1 = Except.ok () ∧
    lookupClaim (transfer_claim (Origin.signed A) B f st).2.proofs f
      = some (B, r) := by
  have hc : containsKey st.proofs f = true :=
    containsKey_true_of_lookupClaim _ _ _ h
  have hg : getClaim st.proofs f = (A, r) := getClaim_of_lookupClaim _ _ _ h
  constructor
  · simp [transfer_claim, ensure_signed, hc, hg]
  · simp [transfer_claim, ensure_signed, hc, hg, deposit_event,
      lookupClaim_insertClaim_self]

/-- Witness for C2: a transfer of a claim registered at sequence 1. -/
theorem transfer_preserves_registered_at_witness :
    lookupClaim [([3], (1, 1))] [3] = some (1, 1) ∧
    ((transfer_claim (Origin.signed 1) 2 [3] ⟨[([3], (1, 1))], []⟩).1
       = Except.ok () ∧
     lookupClaim
       (transfer_claim (Origin.signed 1) 2 [3]
         ⟨[([3], (1, 1))], []⟩).2.proofs [3] = some (2, 1)) :=
  ⟨by decide, transfer_preserves_registered_at ⟨[([3], (1, 1))], []⟩ 1 2 [3] 1
    (by decide)⟩

/-- C9: self-transfer is permitted: when the store maps f to (A, r),
transfer_claim called by A with dest = A succeeds, leaves the stored
record equal to (A, r), and emits ClaimTransfered(A, A, f). -/
theorem self_transfer_allowed (st : PoeState) (A : AccountId)
    (f : Fingerprint) (r : BlockNumber)
    (h : lookupClaim st.proofs f = some (A, r)) :
    (transfer_claim (Origin.signed A) A f st).1 = Except.ok () ∧
    lookupClaim (transfer_claim (Origin.signed A) A f st).2.proofs f
      = some (A, r) ∧
    (transfer_claim (Origin.signed A) A f st).2.events
      = st.events ++ [Event.ClaimTransfered A A f] := by
  have hc : containsKey st.proofs f = true :=
    containsKey_true_of_lookupClaim _ _ _ h
  have hg : getClaim st.proofs f = (A, r) := getClaim_of_lookupClaim _ _ _ h
  refine ⟨?_, ?_, ?_⟩ <;>
    simp [transfer_claim, ensure_signed, hc, hg, deposit_event,
      lookupClaim_insertClaim_self]

/-- Witness for C9: an owner transfers a claim to itself. -/
theorem self_transfer_allowed_witness :
    lookupClaim [([6], (4, 2))] [6] = some (4, 2) ∧
    ((transfer_claim (Origin.signed 4) 4 [6] ⟨[([6], (4, 2))], []⟩).1
       = Except.ok () ∧
     lookupClaim
       (transfer_claim (Origin.signed 4) 4 [6]
         ⟨[([6], (4, 2))], []⟩).2.proofs [6] = some (4, 2) ∧
     (transfer_claim (Origin.signed 4) 4 [6] ⟨[([6], (4, 2))], []⟩).2.events
       = ([] : List Event) ++ [Event.ClaimTransfered 4 4 [6]]) :=
  ⟨by decide, self_transfer_allowed ⟨[([6], (4, 2))], []⟩ 4 [6] 2 (by decide)⟩

/-- C4: revoke_claim fails with ClaimNotExist when f is absent, fails
with NotClaimOwner when f is present but owned by someone else, leaving
the store unchanged in both cases; when f is present and owned by the
caller it removes f from the store and emits ClaimRevoked(caller, f). -/
theorem revoke_claim_spec (st : PoeState) (A : AccountId) (f : Fingerprint) :
    (lookupClaim st.proofs f = none →
      revoke_claim (Origin.signed A) f st
        = (Except.error (DispatchError.Module Error.ClaimNotExist), st)) ∧
    (∀ B r, lookupClaim st.proofs f = some (B, r) → B ≠ A →
      revoke_claim (Origin.signed A) f st
        = (Except.error (DispatchError.Module Error.NotClaimOwner), st)) ∧
    (∀ r, lookupClaim st.proofs f = some (A, r) →
      (revoke_claim (Origin.signed A) f st).1 = Except.ok () ∧
      lookupClaim (revoke_claim (Origin.signed A) f st).2.proofs f = none ∧
      (revoke_claim (Origin.signed A) f st).2.events
        = st.events ++ [Event.ClaimRevoked A f]) := by
  refine ⟨fun h => ?_, fun B r h hBA => ?_, fun r h => ?_⟩
  · have hc : containsKey st.proofs f = false :=
      containsKey_false_of_lookupClaim _ _ h
    simp [revoke_claim, ensure_signed, hc]
  · have hc : containsKey st.proofs f = true :=
      containsKey_true_of_lookupClaim _ _ _ h
    have hg : getClaim st.proofs f = (B, r) := getClaim_of_lookupClaim _ _ _ h
    have hAB : ¬ A = B := fun hh => hBA hh.symm
    simp [revoke_claim, ensure_signed, hc, hg, hAB]
  · have hc : containsKey st.proofs f = true :=
      containsKey_true_of_lookupClaim _ _ _ h
    have hg : getClaim st.proofs f = (A, r) := getClaim_of_lookupClaim _ _ _ h
    refine ⟨?_, ?_, ?_⟩ <;>
      simp [revoke_claim, ensure_signed, hc, hg, deposit_event,
        lookupClaim_removeClaim_self]

/-- Witness for C4: the three revoke cases at concrete states. -/
theorem revoke_claim_spec_witness :
    (revoke_claim (Origin.signed 1) [5] initState
       = (Except.error (DispatchError.Module Error.ClaimNotExist),
          initState)) ∧
    (revoke_claim (Origin.signed 1) [5] ⟨[([5], (2, 3))], []⟩
       = (Except.error (DispatchError.Module Error.NotClaimOwner),
          ⟨[([5], (2, 3))], []⟩)) ∧
    ((revoke_claim (Origin.signed 2) [5] ⟨[([5], (2, 3))], []⟩).1
       = Except.ok () ∧
     lookupClaim
       (revoke_claim (Origin.signed 2) [5]
         ⟨[([5], (2, 3))], []⟩).2.proofs [5] = none ∧
     (revoke_claim (Origin.signed 2) [5] ⟨[([5], (2, 3))], []⟩).2.events
       = ([] : List Event) ++ [Event.ClaimRevoked 2 [5]]) :=
  ⟨(revoke_claim_spec initState 1 [5]).1 (by decide),
   (revoke_claim_spec ⟨[([5], (2, 3))], []⟩ 1 [5]).2.1 2 3 (by decide)
     (by decide),
   (revoke_claim_spec ⟨[([5], (2, 3))], []⟩ 2 [5]).2.2 3 (by decide)⟩

/-- C3: every operation is atomic: on every failing call the state
(store and events) is left exactly as it was, and on every successful
call exactly one event is emitted, appended to the event list and
matching the operation and its arguments. -/
theorem dispatch_atomicity (st : PoeState) (o : Origin) (f : Fingerprint)
    (now : BlockNumber) (d : AccountId) :
    (∀ e, (create_claim o f now st).1 = Except.error e →
      (create_claim o f now st).2 = st) ∧
    (∀ A, o = Origin.signed A → (create_claim o f now st).1 = Except.ok () →
      (create_claim o f now st).2.events
        = st.events ++ [Event.ClaimCreated A f]) ∧
    (∀ e, (revoke_claim o f st).1 = Except.error e →
      (revoke_claim o f st).2 = st) ∧
    (∀ A, o = Origin.signed A → (revoke_claim o f st).1 = Except.ok () →
      (revoke_claim o f st).2.events
        = st.events ++ [Event.ClaimRevoked A f]) ∧
    (∀ e, (transfer_claim o d f st).1 = Except.error e →
      (transfer_claim o d f st).2 = st) ∧
    (∀ A, o = Origin.signed A → (transfer_claim o d f st).1 = Except.ok () →
      (transfer_claim o d f st).2.events
        = st.events ++ [Event.ClaimTransfered A d f]) := by
  refine ⟨?_, ?_, ?_, ?_, ?_, ?_⟩
  · intro e he
    cases o with
    | signed A =>
        by_cases hc : containsKey st.proofs f
        · simp [create_claim, ensure_signed, hc]
        · simp [create_claim, ensure_signed, hc] at he
    | root => simp [create_claim, ensure_signed]
    | unsigned => simp [create_claim, ensure_signed]
  · intro A hA hok
    subst hA
    by_cases hc : containsKey st.proofs f
    · simp [create_claim, ensure_signed, hc] at hok
    · simp [create_claim, ensure_signed, hc, deposit_event]
  · intro e he
    cases o with
    | signed A =>
        by_cases hc : containsKey st.proofs f
        · by_cases hown : A = (getClaim st.proofs f).1
          · simp [revoke_claim, ensure_signed, hc, hown] at he
          · simp [revoke_claim, ensure_signed, hc, hown]
        · simp [revoke_claim, ensure_signed, hc]
    | root => simp [revoke_claim, ensure_signed]
    | unsigned => simp [revoke_claim, ensure_signed]
  · intro A hA hok
    subst hA
    by_cases hc : containsKey st.proofs f
    · by_cases hown : A = (getClaim st.proofs f).1
      · simp [revoke_claim, ensure_signed, hc, hown, deposit_event]
      · simp [revoke_claim, ensure_signed, hc, hown] at hok
    · simp [revoke_claim, ensure_signed, hc] at hok
  · intro e he
    cases o with
    | signed A =>
        by_cases hc : containsKey st.proofs f
        · by_cases hown : A = (getClaim st.proofs f).1
          · simp [transfer_claim, ensure_signed, hc, hown] at he
          · simp [transfer_claim, ensure_signed, hc, hown]
        · simp [transfer_claim, ensure_signed, hc]
    | root => simp [transfer_claim, ensure_signed]
    | unsigned => simp [transfer_claim, ensure_signed]
  · intro A hA hok
    subst hA
    by_cases hc : containsKey st.proofs f
    · by_cases hown : A = (getClaim st.proofs f).1
      · simp [transfer_claim, ensure_signed, hc, hown, deposit_event]
      · simp [transfer_claim, ensure_signed, hc, hown] at hok
    · simp [transfer_claim, ensure_signed, hc] at hok

/-- Witness for C3: the failing and succeeding branches at concrete
states. -/
theorem dispatch_atomicity_witness :
    ((create_claim (Origin.signed 1) [9] 4 ⟨[([9], (2, 1))], []⟩).2
       = ⟨[([9], (2, 1))], []⟩) ∧
    ((create_claim (Origin.signed 1) [9] 4 initState).2.events
       = initState.events ++ [Event.ClaimCreated 1 [9]]) ∧
    ((revoke_claim (Origin.signed 1) [9] initState).2 = initState) ∧
    ((revoke_claim (Origin.signed 2) [9] ⟨[([9], (2, 1))], []⟩).2.events
       = ([] : List Event) ++ [Event.ClaimRevoked 2 [9]]) ∧
    ((transfer_claim (Origin.signed 3) 5 [9] ⟨[([9], (2, 1))], []⟩).2
       = ⟨[([9], (2, 1))], []⟩) ∧
    ((transfer_claim (Origin.signed 2) 5 [9] ⟨[([9], (2, 1))], []⟩).2.events
       = ([] : List Event) ++ [Event.ClaimTransfered 2 5 [9]]) :=
  ⟨(dispatch_atomicity ⟨[([9], (2, 1))], []⟩ (Origin.signed 1) [9] 4 5).1
     (DispatchError.Module Error.ProofAlreadyExist) rfl,
   (dispatch_atomicity initState (Origin.signed 1) [9] 4 5).2.1 1 rfl rfl,
   (dispatch_atomicity initState (Origin.signed 1) [9] 4 5).2.2.1
     (DispatchError.Module Error.ClaimNotExist) rfl,
   (dispatch_atomicity ⟨[([9], (2, 1))], []⟩ (Origin.signed 2) [9] 4 5).2.2.2.1
     2 rfl rfl,
   (dispatch_atomicity ⟨[([9], (2, 1))], []⟩ (Origin.signed 3) [9] 4 5).2.2.2.2.1
     (DispatchError.Module Error.NotClaimOwner) rfl,
   (dispatch_atomicity ⟨[([9], (2, 1))], []⟩ (Origin.signed 2) [9] 4 5).2.2.2.2.2
     2 rfl rfl⟩

/-- C8: frame property: for every operation invoked with fingerprint f,
whether it succeeds or fails, every other fingerprint g keeps exactly
the same store entry (presence and value). -/
theorem frame_other_keys_unchanged (st : PoeState) (o : Origin)
    (d : AccountId) (f g : Fingerprint) (now : BlockNumber) (h : g ≠ f) :
    lookupClaim (create_claim o f now st).2.proofs g
      = lookupClaim st.proofs g ∧
    lookupClaim (revoke_claim o f st).2.proofs g
      = lookupClaim st.proofs g ∧
    lookupClaim (transfer_claim o d f st).2.proofs g
      = lookupClaim st.proofs g := by
  refine ⟨?_, ?_, ?_⟩
  · cases o with
    | signed A =>
        by_cases hc : containsKey st.proofs f
        · simp [create_claim, ensure_signed, hc]
        · simp [create_claim, ensure_signed, hc, deposit_event,
            lookupClaim_insertClaim_ne _ _ _ _ h]
    | root => simp [create_claim, ensure_signed]
    | unsigned => simp [create_claim, ensure_signed]
  · cases o with
    | signed A =>
        by_cases hc : containsKey st.proofs f
        · by_cases hown : A = (getClaim st.proofs f).1
          · simp [revoke_claim, ensure_signed, hc, hown, deposit_event,
              lookupClaim_removeClaim_ne _ _ _ h]
          · simp [revoke_claim, ensure_signed, hc, hown]
        · simp [revoke_claim, ensure_signed, hc]
    | root => simp [revoke_claim, ensure_signed]
    | unsigned => simp [revoke_claim, ensure_signed]
  · cases o with
    | signed A =>
        by_cases hc : containsKey st.proofs f
        · by_cases hown : A = (getClaim st.proofs f).1
          · simp [transfer_claim, ensure_signed, hc, hown, deposit_event,
              lookupClaim_insertClaim_ne _ _ _ _ h]
          · simp [transfer_claim, ensure_signed, hc, hown]
        · simp [transfer_claim, ensure_signed, hc]
    | root => simp [transfer_claim, ensure_signed]
    | unsigned => simp [transfer_claim, ensure_signed]

/-- Witness for C8 at a concrete pair of distinct fingerprints. -/
theorem frame_other_keys_unchanged_witness :
    lookupClaim
      (create_claim (Origin.signed 1) [7] 2
        ⟨[([8], (3, 1))], []⟩).2.proofs [8] =
      lookupClaim [([8], (3, 1))] [8] ∧
    lookupClaim
      (revoke_claim (Origin.signed 1) [7] ⟨[([8], (3, 1))], []⟩).2.proofs [8] =
      lookupClaim [([8], (3, 1))] [8] ∧
    lookupClaim
      (transfer_claim (Origin.signed 1) 6 [7]
        ⟨[([8], (3, 1))], []⟩).2.proofs [8] =
      lookupClaim [([8], (3, 1))] [8] :=
  frame_other_keys_unchanged ⟨[([8], (3, 1))], []⟩ (Origin.signed 1) 6 [7] [8]
    2 (by decide)

/-- States reachable from genesis through the three dispatchables, with
arbitrary origins, arguments and block numbers. -/
inductive Reachable : PoeState → Prop where
  | init : Reachable initState
  | create (o : Origin) (c : Fingerprint) (now : BlockNumber)
      (st : PoeState) : Reachable st → Reachable (create_claim o c now st).2
  | revoke (o : Origin) (c : Fingerprint) (st : PoeState) :
      Reachable st → Reachable (revoke_claim o c st).2
  | transfer (o : Origin) (d : AccountId) (c : Fingerprint) (st : PoeState) :
      Reachable st → Reachable (transfer_claim o d c st).2

theorem keys_nodup_create_claim (o : Origin) (c : Fingerprint)
    (now : BlockNumber) (st : PoeState)
    (h : (st.proofs.map Prod.fst).Nodup) :
    ((create_claim o c now st).2.proofs.map Prod.fst).Nodup := by
  cases o with
  | signed A =>
      by_cases hc : containsKey st.proofs c
      · simpa [create_claim, ensure_signed, hc] using h
      · simpa [create_claim, ensure_signed, hc, deposit_event] using
          keys_nodup_insertClaim st.proofs c (A, now) h
  | root => simpa [create_claim, ensure_signed] using h
  | unsigned => simpa [create_claim, ensure_signed] using h

theorem keys_nodup_revoke_claim (o : Origin) (c : Fingerprint)
    (st : PoeState) (h : (st.proofs.map Prod.fst).Nodup) :
    ((revoke_claim o c st).2.proofs.map Prod.fst).Nodup := by
  cases o with
  | signed A =>
      by_cases hc : containsKey st.proofs c
      · by_cases hown : A = (getClaim st.proofs c).1
        · simpa [revoke_claim, ensure_signed, hc, hown, deposit_event] using
            keys_nodup_removeClaim st.proofs c h
        · simpa [revoke_claim, ensure_signed, hc, hown] using h
      · simpa [revoke_claim, ensure_signed, hc] using h
  | root => simpa [revoke_claim, ensure_signed] using h
  | unsigned => simpa [revoke_claim, ensure_signed] using h

theorem keys_nodup_transfer_claim (o : Origin) (d : AccountId)
    (c : Fingerprint) (st : PoeState)
    (h : (st.proofs.map Prod.fst).Nodup) :
    ((transfer_claim o d c st).2.proofs.map Prod.fst).Nodup := by
  cases o with
  | signed A =>
      by_cases hc : containsKey st.proofs c
      · by_cases hown : A = (getClaim st.proofs c).1
        · simpa [transfer_claim, ensure_signed, hc, hown, deposit_event] using
            keys_nodup_insertClaim st.proofs c (d, (getClaim st.proofs c).2) h
        · simpa [transfer_claim, ensure_signed, hc, hown] using h
      · simpa [transfer_claim, ensure_signed, hc] using h
  | root => simpa [transfer_claim, ensure_signed] using h
  | unsigned => simpa [transfer_claim, ensure_signed] using h

/-- C6: in every state reachable via create_claim, revoke_claim and
transfer_claim, each distinct fingerprint is associated with at most one
Claim record (the key list of the store has no duplicates), and every
operation preserves this invariant. -/
theorem claims_unique_invariant :
    (∀ st : PoeState, Reachable st → (st.proofs.map Prod.fst).Nodup) ∧
    (∀ (st : PoeState) (o : Origin) (d : AccountId) (c : Fingerprint)
       (now : BlockNumber), (st.proofs.map Prod.fst).Nodup →
      ((create_claim o c now st).2.proofs.map Prod.fst).Nodup ∧
      ((revoke_claim o c st).2.proofs.map Prod.fst).Nodup ∧
      ((transfer_claim o d c st).2.proofs.map Prod.fst).Nodup) := by
  constructor
  · intro st h
    induction h with
    | init => simp [initState]
    | create o c now st _ ih => exact keys_nodup_create_claim o c now st ih
    | revoke o c st _ ih => exact keys_nodup_revoke_claim o c st ih
    | transfer o d c st _ ih => exact keys_nodup_transfer_claim o d c st ih
  · intro st o d c now h
    exact ⟨keys_nodup_create_claim o c now st h,
      keys_nodup_revoke_claim o c st h,
      keys_nodup_transfer_claim o d c st h⟩

/-- Witness for C6: the invariant at a concrete reachable state and for
a concrete preservation step. -/
theorem claims_unique_invariant_witness :
    (((create_claim (Origin.signed 1) [0] 1 initState).2.proofs.map
        Prod.fst).Nodup) ∧
    (((create_claim (Origin.signed 2) [3] 2
        ⟨[([0], (1, 1))], []⟩).2.proofs.map Prod.fst).Nodup) :=
  ⟨claims_unique_invariant.1 _
     (Reachable.create (Origin.signed 1) [0] 1 initState Reachable.init),
   (claims_unique_invariant.2 ⟨[([0], (1, 1))], []⟩ (Origin.signed 2) 5 [3] 2
     (by decide)).1⟩

/-- The fingerprint of the end-to-end scenario: the bytes de ad be ef. -/
def fpDeadbeef : Fingerprint := [222, 173, 190, 239]

/-- Scenario state after A (account 1) creates the claim at block 1. -/
def scenarioSt1 : PoeState :=
  (create_claim (Origin.signed 1) fpDeadbeef 1 initState).2

/-- Scenario state after A transfers the claim to B (account 2); the
call happens at block 5 but transfer_claim reads no clock. -/
def scenarioSt2 : PoeState :=
  (transfer_claim (Origin.signed 1) 2 fpDeadbeef scenarioSt1).2

/-- Scenario state after B revokes the claim at block 9. -/
def scenarioSt3 : PoeState :=
  (revoke_claim (Origin.signed 2) fpDeadbeef scenarioSt2).2

/-- Scenario state after C (account 3) creates the claim at block 10. -/
def scenarioSt4 : PoeState :=
  (create_claim (Origin.signed 3) fpDeadbeef 10 scenarioSt3).2

/-- C7: the end-to-end scenario: A creates at block 1 giving
{deadbeef:(A,1)}; A transfers to B at block 5 giving {deadbeef:(B,1)};
B revokes at block 9 giving the empty store; C creates at block 10
giving {deadbeef:(C,10)}. -/
theorem end_to_end_scenario :
    scenarioSt1.proofs = [(fpDeadbeef, (1, 1))] ∧
    scenarioSt2.proofs = [(fpDeadbeef, (2, 1))] ∧
    scenarioSt3.proofs = [] ∧
    scenarioSt4.proofs = [(fpDeadbeef, (3, 10))] := by
  refine ⟨?_, ?_, ?_, ?_⟩ <;> decide

end Poe
